import Mathlib

/-!
Shallow embedding of the clipper web client (frontend/src/App.jsx and its
variant) in Lean 4. JavaScript strings are modelled as `List Char`; the
string primitives the client uses (`String.prototype.split`,
`String.prototype.startsWith`, `parseInt`, the `||` default operator) are
embedded below, and the client's state updates, poll loop, progress
renderer and clip display are translated from the source.
-/

namespace Clipper

/-! ### JavaScript string primitives -/

/-- JS `s.split(sep)` for a non-empty separator, on `List Char`.
`''.split(sep) = ['']`; consecutive separators yield empty chunks.
(For the degenerate empty separator, which the client never uses, this
returns `[s]`.) -/
def jsSplit (sep : List Char) : List Char → List (List Char)
  | [] => [[]]
  | c :: rest =>
    if sep ≠ [] ∧ sep.isPrefixOf (c :: rest) then
      [] :: jsSplit sep ((c :: rest).drop sep.length)
    else
      match jsSplit sep rest with
      | [] => [[c]]
      | chunk :: chunks => (c :: chunk) :: chunks
termination_by s => s.length
decreasing_by
  · rename_i h
    have hsep : 0 < sep.length := List.length_pos.mpr h.1
    simp only [List.length_drop, List.length_cons]
    omega
  · simp

/-- JS array indexing `a[i]`: `undefined` (here `none`) when out of range. -/
def jsIndex (l : List (List Char)) (i : Nat) : Option (List Char) :=
  l.get? i

/-- JS string-valued `a || b`: `a` unless `a` is absent (`undefined`) or the
empty string (both falsy), in which case `b`. -/
def jsOrStr (a : Option (List Char)) (b : List Char) : List Char :=
  match a with
  | some s => if s = [] then b else s
  | none => b

/-- Decimal digit value of a character, `none` for non-digits. -/
def digitVal (c : Char) : Option Nat :=
  if '0' ≤ c ∧ c ≤ '9' then some (c.toNat - '0'.toNat) else none

/-- Accumulate leading decimal digits, stopping at the first non-digit
(as JS `parseInt` does after its prefix checks). -/
def parseDigitsAux : List Char → Nat → Nat
  | [], acc => acc
  | c :: rest, acc =>
    match digitVal c with
    | some d => parseDigitsAux rest (10 * acc + d)
    | none => acc

/-- JS `parseInt(s)` (radix 10): skip leading spaces, optional sign, then
leading digits; `none` models `NaN` (no digits found). -/
def jsParseInt (s : List Char) : Option Int :=
  match s.dropWhile (· = ' ') with
  | [] => none
  | '-' :: rest =>
    match rest with
    | [] => none
    | c :: _ => if (digitVal c).isSome then some (-(parseDigitsAux rest 0 : Int)) else none
  | '+' :: rest =>
    match rest with
    | [] => none
    | c :: _ => if (digitVal c).isSome then some ((parseDigitsAux rest 0 : Int)) else none
  | c :: rest =>
    if (digitVal c).isSome then some ((parseDigitsAux (c :: rest) 0 : Int)) else none

/-- JS `Math.round`: round half toward positive infinity. -/
def jsRound (q : ℚ) : Int := ⌊q + 1 / 2⌋

/-! ### Lemmas about the string primitives -/

theorem isPrefixOf_append_self (l t : List Char) : l.isPrefixOf (l ++ t) = true := by
  induction l with
  | nil => simp [List.isPrefixOf]
  | cons c cs ih => simp [List.isPrefixOf, ih]

theorem isPrefixOf_cons_ne (a : Char) (l : List Char) (b : Char) (t : List Char)
    (h : a ≠ b) : (a :: l).isPrefixOf (b :: t) = false := by
  simp [List.isPrefixOf, h]

/-- If the separator's first character never occurs in `s`, splitting
leaves `s` whole. -/
theorem jsSplit_of_not_mem (a : Char) (sep s : List Char) (h : a ∉ s) :
    jsSplit (a :: sep) s = [s] := by
  induction s with
  | nil => simp [jsSplit]
  | cons c rest ih =>
    have hca : a ≠ c := fun hh => h (hh ▸ List.mem_cons_self c rest)
    have hrest : a ∉ rest := fun hh => h (List.mem_cons_of_mem c hh)
    rw [jsSplit]
    rw [if_neg]
    · rw [ih hrest]
    · intro hcontra
      have := hcontra.2
      rw [isPrefixOf_cons_ne a sep c rest hca] at this
      exact Bool.false_ne_true this

/-- Splitting `pre ++ sep ++ post` where the separator's first character
does not occur in `pre` emits `pre` as the first chunk and continues on
`post`. -/
theorem jsSplit_append (a : Char) (sep pre post : List Char) (h : a ∉ pre) :
    jsSplit (a :: sep) (pre ++ (a :: sep) ++ post) = pre :: jsSplit (a :: sep) post := by
  induction pre with
  | nil =>
    rw [jsSplit.eq_def]
    simp only [List.nil_append, List.cons_append]
    rw [if_pos]
    · have hdrop : ((a :: (sep ++ post)).drop (a :: sep).length) = post := by
        have : a :: (sep ++ post) = (a :: sep) ++ post := by simp
        rw [this, List.drop_left]
      rw [hdrop]
    · constructor
      · simp
      · have : a :: (sep ++ post) = (a :: sep) ++ post := by simp
        rw [this]
        exact isPrefixOf_append_self (a :: sep) post
  | cons c cs ih =>
    have hca : a ≠ c := fun hh => h (hh ▸ List.mem_cons_self c cs)
    have hcs : a ∉ cs := fun hh => h (List.mem_cons_of_mem c hh)
    rw [jsSplit.eq_def]
    simp only [List.cons_append]
    rw [if_neg]
    · rw [show cs ++ a :: sep ++ post = cs ++ (a :: sep) ++ post by simp]
      rw [ih hcs]
    · intro hcontra
      have := hcontra.2
      rw [isPrefixOf_cons_ne a sep c (cs ++ a :: sep ++ post) hca] at this
      exact Bool.false_ne_true this

/-! ### Data model: client-side records (App.jsx) -/

/-- A rendered clip as the client receives and displays it:
`path`, `title`, `score`, `transcript_text` (optional fields may be
absent in the JSON). -/
structure Clip where
  path : List Char
  title : Option (List Char)
  score : Option Int
  transcript_text : Option (List Char)
deriving DecidableEq

/-- One entry of the `/api/uploads` listing. -/
structure UploadEntry where
  path : List Char
  filename : List Char
  created_at : Int
  thumbnail : Option (List Char)
  has_transcript : Bool
  clips : List Clip
deriving DecidableEq

/-- Body of a `/api/jobs/{id}` poll response. -/
structure JobResp where
  status : List Char
  clips : List Clip
  error : Option (List Char)
deriving DecidableEq

/-- The client's React state: `status`, `progress`, `clips`, `error`,
`jobId` hooks, plus `polling`, which models whether the poll interval of
the status effect is live (`clearInterval` sets it to `false`). -/
structure ClientState where
  status : List Char
  progress : List Char
  clips : List Clip
  error : Option (List Char)
  jobId : Option (List Char)
  polling : Bool
deriving DecidableEq

/-- An HTTP request the client can issue. -/
inductive Request where
  /-- Request `POST /api/upload` carrying the video file (multipart resubmission). -/
  | postUpload (file : List Char)
  /-- Request `POST /api/process?path=..&gemini_api_key=..`. -/
  | postProcess (path : List Char) (key : List Char)
  /-- Request `GET /api/jobs/` followed by the job id. -/
  | getJob (jobId : List Char)
  /-- Request `GET /api/uploads`. -/
  | getUploads
deriving DecidableEq

/-! ### String constants of the client -/

def doneStr : List Char := "done".data
def failedStr : List Char := "failed".data
def errorStr : List Char := "error".data
def processingStr : List Char := "processing".data
def jobFailedStr : List Char := "Job failed".data
def uploadingStr : List Char := "uploading".data
def transcribingStr : List Char := "transcribing".data
def renderingStr : List Char := "rendering".data
def analyzingStr : List Char := "analyzing".data
def preparingStr : List Char := "preparing...".data
def colonSpaceSep : List Char := ": ".data
def colonSep : List Char := ":".data
def slashSep : List Char := "/".data

/-! ### API base resolution (App.jsx lines 5-8) -/

/-- The hard-coded default API base. -/
def defaultApiBase : List Char := "http://localhost:8000".data

/-- Resolution `let API_BASE = import.meta.env.VITE_API_BASE_URL || 'http://localhost:8000';
if (API_BASE && !API_BASE.startsWith('http')) API_BASE = https:// + API_BASE`.
`env = none` models an unset variable, `some []` an empty one. -/
def resolveApiBase (env : Option (List Char)) : List Char :=
  let base := jsOrStr env defaultApiBase
  if base ≠ [] ∧ ¬ ("http".data.isPrefixOf base = true) then "https://".data ++ base
  else base

/-! ### Upload progress (startUpload, onUploadProgress) -/

/-- The percentage `Math.round((progressEvent.loaded * 100) / progressEvent.total)`. -/
def uploadPercent (loaded total : Nat) : Int :=
  jsRound (((loaded : ℚ) * 100) / (total : ℚ))

/-- The template literal `uploading: ${percentCompleted}%` passed to
`setProgress` on each browser upload progress event. -/
def uploadProgressMsg (loaded total : Nat) : List Char :=
  "uploading: ".data ++ (toString (uploadPercent loaded total)).data ++ "%".data

/-! ### Poll loop (the status effect, App.jsx lines 62-86 / part_000 94-118) -/

/-- The poll period passed to `setInterval`, in milliseconds. -/
def pollIntervalMs : Nat := 2000

/-- One tick of the poll interval. `resp = none` models a failed request
(the `catch` branch only logs). On a response the client always displays
the job's status as progress; on `done` it takes the clip list and clears
the interval, on `failed` it takes the error (defaulting to `Job failed`)
and clears the interval. A tick on a cleared interval (`polling = false`)
does nothing. -/
def pollTick (s : ClientState) (resp : Option JobResp) : ClientState :=
  if s.polling = false then s
  else
    match resp with
    | none => s
    | some job =>
      let s1 : ClientState := { s with progress := job.status }
      if job.status = doneStr then
        { s1 with clips := job.clips, status := doneStr, polling := false }
      else if job.status = failedStr then
        { s1 with error := some (jsOrStr job.error jobFailedStr),
                  status := errorStr, polling := false }
      else s1

/-! ### Upload-list actions (part_000 lines 49-60 and 251-271) -/

/-- The `View N Clips` button: `setClips(upload.clips); setStatus('done')`
plus a scroll. Returns the new state and the requests issued. -/
def viewCachedClips (u : UploadEntry) (s : ClientState) :
    ClientState × List Request :=
  ({ s with clips := u.clips, status := doneStr }, [])

/-- The handler `startProcessingExisting(path)`: set status to `processing`, POST to
the process endpoint with the existing upload path and the stored key;
on success record the returned job id, on request error record the error
message and status `error`. -/
def startProcessingExisting (path key : List Char) (s : ClientState)
    (resp : Except (List Char) (List Char)) : ClientState × List Request :=
  let s1 : ClientState := { s with status := processingStr }
  match resp with
  | .ok jid => ({ s1 with jobId := some jid }, [Request.postProcess path key])
  | .error msg =>
      ({ s1 with error := some msg, status := errorStr }, [Request.postProcess path key])

/-! ### Clip display (status `done` branch) -/

/-- The sort key `(clip.score || 0)` of the display comparator. -/
def sortKey (c : Clip) : Int := c.score.getD 0

/-- The display ordering `[...clips].sort((a, b) => (b.score || 0) - (a.score || 0))`: a stable
sort of a copy of the stored list, descending by score with missing
scores as 0 (the ES2019+ `Array.prototype.sort` is stable; comparator
`≤ 0` keeps `a` before `b`). -/
def displayedClips (clips : List Clip) : List Clip :=
  clips.mergeSort (fun a b => sortKey b ≤ sortKey a)

/-- The score badge colour classes. -/
inductive Badge where
  | emerald
  | yellow
  | slate
deriving DecidableEq

/-- The badge choice `clip.score >= 80 ? emerald : clip.score >= 60 ? yellow : slate`. -/
def scoreBadge (score : Int) : Badge :=
  if 80 ≤ score then Badge.emerald
  else if 60 ≤ score then Badge.yellow
  else Badge.slate

/-! ### Progress rendering (part_000 lines 283-341) -/

/-- The progress section rendered while `status` is `uploading` or
`processing`: a determinate bar (stage label `progress.split(':')[0]`,
detail `progress.split(': ')[1]`) for progress strings starting with
`transcribing`, `rendering` or `uploading`; an indeterminate pulse bar
for strings starting with `analyzing`; otherwise the generic
`Current Step:` line. -/
inductive ProgressView where
  | bar (stage : List Char) (detail : Option (List Char))
  | analyzing
  | generic (p : List Char)
deriving DecidableEq

def renderProgress (progress : List Char) : ProgressView :=
  if transcribingStr.isPrefixOf progress = true
      ∨ renderingStr.isPrefixOf progress = true
      ∨ uploadingStr.isPrefixOf progress = true then
    ProgressView.bar ((jsSplit colonSep progress).getD 0 [])
      (jsIndex (jsSplit colonSpaceSep progress) 1)
  else if analyzingStr.isPrefixOf progress = true then
    ProgressView.analyzing
  else
    ProgressView.generic progress

/-- The CSS width of the determinate bar. A width given as a percentage
(the `'5%'` literal and the template `${...}%`) is modelled as `pct`
carrying the numeric value; a `val` string used as-is is `raw`; `undef`
collapses the non-finite JS float results (a `NaN` from `parseInt` or a
division by zero), which the wire format never produces. -/
inductive WidthVal where
  | pct (q : ℚ)
  | raw (s : List Char)
  | undef
deriving DecidableEq

/-- The width IIFE: `val = progress.split(': ')[1]; if (!val) return '5%';
if (val === 'preparing...') return '5%'; if rendering: parts = val.split('/');
return max(5, (parseInt(parts[0]) / parseInt(parts[1])) * 100) + '%';
return val.includes('%') ? val : val + '%'`. -/
def barWidth (progress : List Char) : WidthVal :=
  match jsIndex (jsSplit colonSpaceSep progress) 1 with
  | none => WidthVal.pct 5
  | some val =>
    if val = [] then WidthVal.pct 5
    else if val = preparingStr then WidthVal.pct 5
    else if renderingStr.isPrefixOf progress = true then
      match jsParseInt ((jsSplit slashSep val).getD 0 []),
            jsIndex (jsSplit slashSep val) 1 with
      | some c, some tChunk =>
        match jsParseInt tChunk with
        | some t =>
          if t = 0 then WidthVal.undef
          else WidthVal.pct (max 5 (((c : ℚ) / (t : ℚ)) * 100))
        | none => WidthVal.undef
      | _, _ => WidthVal.undef
    else if val.contains '%' then WidthVal.raw val
    else WidthVal.raw (val ++ "%".data)

/-! ### The backend pipeline result, modelled from the spec -/

/-- Modelled from the spec: the backend job orchestration engine (Upload
Registry, Job Store, Pipeline Executor) is not among the sources — only
its client is. Per the spec, "Given an Upload with zero cached clips, a
successful run produces a non-empty clip list with scores in `[0, 100]`"
and a Clip's "relevance score (bounded 0-100, higher = better)". -/
def SuccessfulRunClips (clips : List Clip) : Prop :=
  clips ≠ [] ∧ ∀ c ∈ clips, ∀ s : Int, c.score = some s → 0 ≤ s ∧ s ≤ 100

/-! ### Sample data used by witnesses -/

def sampleClip : Clip := ⟨"clip.mp4".data, some ("T".data), some 90, none⟩

def sampleState : ClientState :=
  ⟨processingStr, "queued".data, [], none, some ("j1".data), true⟩

def sampleDoneResp : JobResp := ⟨doneStr, [sampleClip], none⟩

def sampleFailResp : JobResp := ⟨failedStr, [], none⟩

/-! ### Helper lemmas about the poll loop -/

/-- A tick on a cleared interval changes nothing. -/
theorem pollTick_cleared (t : ClientState) (x : Option JobResp)
    (h : t.polling = false) : pollTick t x = t := by
  unfold pollTick
  simp [h]

/-- Normal form of a successful poll tick while the interval is live. -/
theorem pollTick_some (s : ClientState) (r : JobResp) (hp : s.polling = true) :
    pollTick s (some r) =
      if r.status = doneStr then
        { s with progress := r.status, clips := r.clips, status := doneStr,
                 polling := false }
      else if r.status = failedStr then
        { s with progress := r.status,
                 error := some (jsOrStr r.error jobFailedStr),
                 status := errorStr, polling := false }
      else { s with progress := r.status } := by
  unfold pollTick
  rw [if_neg (by simp [hp])]

/-! ### Claim theorems -/

/-- C9, counterexample: the claim says an empty configured base URL is
used unchanged, but the client substitutes the hard-coded default
`http://localhost:8000` for an empty (falsy) configured value. -/
theorem resolveApiBase_empty_counterexample :
    resolveApiBase (some ("".data)) ≠ "".data := by
  decide

/-- C9 (amended): an empty configured base URL is replaced by the default
`http://localhost:8000`; a non-empty one is used unchanged when it starts
with `http` (hence also `https`), and otherwise gets `https://` prepended;
no other transformation is applied. -/
theorem resolveApiBase_cases (b : List Char) :
    (b = [] → resolveApiBase (some b) = defaultApiBase)
    ∧ (b ≠ [] → "http".data.isPrefixOf b = true → resolveApiBase (some b) = b)
    ∧ (b ≠ [] → "http".data.isPrefixOf b = false →
        resolveApiBase (some b) = "https://".data ++ b) := by
  refine ⟨?_, ?_, ?_⟩
  · intro hb
    subst hb
    decide
  · intro hb hp
    unfold resolveApiBase jsOrStr
    simp [hb, hp]
  · intro hb hp
    unfold resolveApiBase jsOrStr
    simp [hb, hp]

theorem resolveApiBase_cases_witness :
    resolveApiBase (some ("example.com".data)) = "https://".data ++ "example.com".data :=
  (resolveApiBase_cases ("example.com".data)).2.2 (by decide) (by decide)

/-- C7: a failed poll request (the `catch` branch) leaves the entire
client state — displayed status, progress, clips, error, and the live
interval — unchanged, and the poll period is the fixed 2000 ms constant,
so observation of an in-flight job continues. -/
theorem poll_error_no_change (s : ClientState) :
    pollTick s none = s ∧ pollIntervalMs = 2000 := by
  constructor
  · unfold pollTick
    by_cases hp : s.polling = false <;> simp [hp]
  · rfl

/-- C2: once a poll response reports status `done` or `failed`, the
client clears its interval, and no sequence of later poll ticks (however
the responses go) changes the displayed state again. -/
theorem terminal_poll_stops (s : ClientState) (r : JobResp)
    (hr : r.status = doneStr ∨ r.status = failedStr) :
    (pollTick s (some r)).polling = false
    ∧ ∀ rest : List (Option JobResp),
        rest.foldl pollTick (pollTick s (some r)) = pollTick s (some r) := by
  have hpol : (pollTick s (some r)).polling = false := by
    by_cases hp : s.polling = false
    · rw [pollTick_cleared s (some r) hp]
      exact hp
    · have hp' : s.polling = true := by
        cases h : s.polling
        · exact absurd h hp
        · rfl
      rw [pollTick_some s r hp']
      rcases hr with hr | hr
      · rw [hr, if_pos rfl]
      · rw [hr, if_neg (by decide), if_pos rfl]
  refine ⟨hpol, ?_⟩
  intro rest
  induction rest with
  | nil => rfl
  | cons x xs ih =>
    rw [List.foldl_cons, pollTick_cleared (pollTick s (some r)) x hpol, ih]

theorem terminal_poll_stops_witness :
    (pollTick sampleState (some sampleDoneResp)).polling = false :=
  (terminal_poll_stops sampleState sampleDoneResp (Or.inl rfl)).1

/-- C3: on every successful poll the response's status string is
displayed as progress; the clip list is taken from the response exactly
when the status is `done`, and the error message exactly when the status
is `failed`, defaulting to `Job failed` when the response carries no
error field. -/
theorem poll_response_handling (s : ClientState) (r : JobResp)
    (hp : s.polling = true) :
    (pollTick s (some r)).progress = r.status
    ∧ (r.status = doneStr →
        (pollTick s (some r)).clips = r.clips
        ∧ (pollTick s (some r)).status = doneStr)
    ∧ (r.status ≠ doneStr → (pollTick s (some r)).clips = s.clips)
    ∧ (r.status = failedStr →
        (pollTick s (some r)).error = some (jsOrStr r.error jobFailedStr)
        ∧ (pollTick s (some r)).status = errorStr
        ∧ (r.error = none → (pollTick s (some r)).error = some jobFailedStr))
    ∧ (r.status ≠ failedStr → (pollTick s (some r)).error = s.error) := by
  rw [pollTick_some s r hp]
  by_cases hd : r.status = doneStr
  · rw [if_pos hd]
    refine ⟨rfl, fun _ => ⟨rfl, rfl⟩, fun h => absurd hd h, fun hf => ?_, fun _ => rfl⟩
    rw [hd] at hf
    exact absurd hf (by decide)
  · rw [if_neg hd]
    by_cases hf : r.status = failedStr
    · rw [if_pos hf]
      refine ⟨rfl, fun h => absurd h hd, fun _ => rfl,
        fun _ => ⟨rfl, rfl, fun he => ?_⟩, fun h => absurd hf h⟩
      rw [he]
      rfl
    · rw [if_neg hf]
      exact ⟨rfl, fun h => absurd h hd, fun _ => rfl, fun h => absurd h hf,
        fun _ => rfl⟩

theorem poll_response_handling_witness :
    (pollTick sampleState (some sampleFailResp)).progress = sampleFailResp.status :=
  (poll_response_handling sampleState sampleFailResp rfl).1

/-- C6: the `View N Clips` handler issues no request at all (in
particular no upload and no process request, hence no new job — the job
id is untouched) and shows exactly the cached clips; the regenerate
handler issues exactly one POST to the process endpoint carrying the
upload's existing path, and in particular never re-uploads the source
video. -/
theorem cached_view_and_regenerate_requests (u : UploadEntry)
    (s : ClientState) (key : List Char)
    (r : Except (List Char) (List Char)) :
    (viewCachedClips u s).2 = []
    ∧ (viewCachedClips u s).1.jobId = s.jobId
    ∧ (viewCachedClips u s).1.clips = u.clips
    ∧ (startProcessingExisting u.path key s r).2
        = [Request.postProcess u.path key]
    ∧ (∀ f, Request.postUpload f ∉ (viewCachedClips u s).2
        ∧ Request.postUpload f ∉ (startProcessingExisting u.path key s r).2) := by
  refine ⟨rfl, rfl, rfl, ?_, ?_⟩
  · cases r <;> rfl
  · intro f
    constructor
    · simp [viewCachedClips]
    · cases r <;> simp [startProcessingExisting]

/-- C4: on a successful run (modelled from the spec, the backend engine
being outside the sources) the clip list is non-empty and every present
relevance score lies in `[0, 100]`; the client's badge classification
puts each such score into exactly one of its three classes — emerald
exactly for scores of at least 80, yellow exactly for scores in
`[60, 80)`, slate exactly for scores below 60. -/
theorem run_scores_bounded_badge_partition (clips : List Clip)
    (h : SuccessfulRunClips clips) :
    clips ≠ []
    ∧ ∀ c ∈ clips, ∀ s : Int, c.score = some s →
        (0 ≤ s ∧ s ≤ 100)
        ∧ (scoreBadge s = Badge.emerald ↔ 80 ≤ s)
        ∧ (scoreBadge s = Badge.yellow ↔ 60 ≤ s ∧ s < 80)
        ∧ (scoreBadge s = Badge.slate ↔ s < 60) := by
  obtain ⟨h1, h2⟩ := h
  refine ⟨h1, fun c hc s hs => ⟨h2 c hc s hs, ?_, ?_, ?_⟩⟩
  · unfold scoreBadge
    by_cases h80 : 80 ≤ s
    · simp [h80]
    · by_cases h60 : 60 ≤ s <;> simp [h80, h60]
  · unfold scoreBadge
    by_cases h80 : 80 ≤ s
    · simp [h80]
    · by_cases h60 : 60 ≤ s
      · simp [h80, h60]
        omega
      · simp [h80, h60]
  · unfold scoreBadge
    by_cases h80 : 80 ≤ s
    · simp [h80]
      omega
    · by_cases h60 : 60 ≤ s
      · simp [h80, h60]
      · simp [h80, h60]
        omega

theorem run_scores_bounded_badge_partition_witness :
    ([sampleClip] : List Clip) ≠ []
    ∧ ∀ c ∈ ([sampleClip] : List Clip), ∀ s : Int, c.score = some s →
        (0 ≤ s ∧ s ≤ 100)
        ∧ (scoreBadge s = Badge.emerald ↔ 80 ≤ s)
        ∧ (scoreBadge s = Badge.yellow ↔ 60 ≤ s ∧ s < 80)
        ∧ (scoreBadge s = Badge.slate ↔ s < 60) := by
  have hs : SuccessfulRunClips [sampleClip] := by
    constructor
    · simp
    · intro c hc s hsc
      rw [List.mem_singleton] at hc
      subst hc
      simp [sampleClip] at hsc
      omega
  exact run_scores_bounded_badge_partition [sampleClip] hs

/-- C5: the displayed clip list is a permutation of the received one,
ordered by non-increasing score with a missing score counted as 0; the
ordering is computed on a copy at render time, the stored list itself
being left as received (the displayed list is a pure function of it). -/
theorem displayed_clips_sorted_perm (clips : List Clip) :
    (displayedClips clips).Perm clips
    ∧ (displayedClips clips).Pairwise (fun a b => sortKey b ≤ sortKey a) := by
  constructor
  · exact List.mergeSort_perm clips _
  · have htrans : ∀ a b c : Clip,
        (fun a b => decide (sortKey b ≤ sortKey a)) a b = true →
        (fun a b => decide (sortKey b ≤ sortKey a)) b c = true →
        (fun a b => decide (sortKey b ≤ sortKey a)) a c = true := by
      intro a b c hab hbc
      simp only [decide_eq_true_eq] at hab hbc ⊢
      exact le_trans hbc hab
    have htotal : ∀ a b : Clip,
        ((fun a b => decide (sortKey b ≤ sortKey a)) a b
          || (fun a b => decide (sortKey b ≤ sortKey a)) b a) = true := by
      intro a b
      simp only [Bool.or_eq_true, decide_eq_true_eq]
      exact le_total (sortKey b) (sortKey a)
    have h := @List.sorted_mergeSort Clip
      (fun a b => decide (sortKey b ≤ sortKey a)) htrans htotal clips
    have hiff : ∀ a b : Clip,
        ((fun a b => decide (sortKey b ≤ sortKey a)) a b = true)
          ↔ sortKey b ≤ sortKey a := by
      intro a b
      simp
    exact List.Pairwise.imp_of_mem (fun ha hb hab => (hiff _ _).mp hab) h

/-- C8: during the browser upload, each progress event with
`0 ≤ loaded ≤ total`, `total > 0` produces exactly the string
`uploading: p%` with `p = round(100·loaded/total)`, an integer in
`[0, 100]` that is 0 at the start and 100 on completion. -/
theorem upload_progress_percent (loaded total : Nat) (h1 : loaded ≤ total)
    (h2 : 0 < total) :
    uploadProgressMsg loaded total
      = "uploading: ".data ++ (toString (uploadPercent loaded total)).data
          ++ "%".data
    ∧ 0 ≤ uploadPercent loaded total
    ∧ uploadPercent loaded total ≤ 100
    ∧ uploadPercent 0 total = 0
    ∧ uploadPercent total total = 100 := by
  have htQ : (0 : ℚ) < (total : ℚ) := by exact_mod_cast h2
  have htne : (total : ℚ) ≠ 0 := ne_of_gt htQ
  refine ⟨rfl, ?_, ?_, ?_, ?_⟩
  · unfold uploadPercent jsRound
    rw [Int.le_floor]
    have hq : (0 : ℚ) ≤ ((loaded : ℚ) * 100) / (total : ℚ) :=
      div_nonneg (by positivity) (le_of_lt htQ)
    push_cast
    linarith
  · unfold uploadPercent jsRound
    rw [Int.floor_le_iff]
    have hq : ((loaded : ℚ) * 100) / (total : ℚ) ≤ 100 := by
      rw [div_le_iff₀ htQ]
      have : (loaded : ℚ) ≤ (total : ℚ) := by exact_mod_cast h1
      linarith
    push_cast
    linarith
  · unfold uploadPercent jsRound
    rw [Int.floor_eq_iff]
    norm_num
  · unfold uploadPercent jsRound
    rw [mul_comm, mul_div_assoc, div_self htne, mul_one]
    rw [Int.floor_eq_iff]
    norm_num

/-- The determinate branch of the progress renderer, for a progress
string of the shape `stage ++ ': ' ++ detail` with no colon inside the
stage name or the detail. -/
theorem renderProgress_stage_detail (stage d : List Char)
    (hpre : transcribingStr.isPrefixOf (stage ++ colonSpaceSep ++ d) = true
      ∨ renderingStr.isPrefixOf (stage ++ colonSpaceSep ++ d) = true
      ∨ uploadingStr.isPrefixOf (stage ++ colonSpaceSep ++ d) = true)
    (hcol : ':' ∉ stage) (hd : ':' ∉ d) :
    renderProgress (stage ++ colonSpaceSep ++ d) = ProgressView.bar stage (some d) := by
  have hsep2 : colonSpaceSep = ':' :: [' '] := rfl
  have h2 : jsSplit colonSpaceSep (stage ++ colonSpaceSep ++ d) = stage :: [d] := by
    rw [hsep2, jsSplit_append ':' [' '] stage d hcol,
        jsSplit_of_not_mem ':' [' '] d hd]
  have key : stage ++ colonSpaceSep ++ d = stage ++ colonSep ++ (' ' :: d) := by
    rw [List.append_assoc, List.append_assoc]
    rfl
  have h1 : jsSplit colonSep (stage ++ colonSpaceSep ++ d)
      = stage :: jsSplit colonSep (' ' :: d) := by
    rw [key]
    have hsep1 : colonSep = ':' :: [] := rfl
    rw [hsep1]
    exact jsSplit_append ':' [] stage (' ' :: d) hcol
  unfold renderProgress
  rw [if_pos hpre, h1, h2]
  rfl

/-- The indeterminate branch: any progress string beginning with
`analyzing` is rendered as the pulse marker. -/
theorem renderProgress_analyzing (rest : List Char) :
    renderProgress (analyzingStr ++ rest) = ProgressView.analyzing := by
  have e2 : analyzingStr ++ rest = 'a' :: ("nalyzing".data ++ rest) := rfl
  unfold renderProgress
  rw [if_neg, if_pos]
  · exact isPrefixOf_append_self analyzingStr rest
  · intro hcon
    rcases hcon with h | h | h
    · have e1 : transcribingStr = 't' :: ("ranscribing".data) := rfl
      rw [e1, e2, isPrefixOf_cons_ne 't' ("ranscribing".data) 'a'
        ("nalyzing".data ++ rest) (by decide)] at h
      exact Bool.false_ne_true h
    · have e1 : renderingStr = 'r' :: ("endering".data) := rfl
      rw [e1, e2, isPrefixOf_cons_ne 'r' ("endering".data) 'a'
        ("nalyzing".data ++ rest) (by decide)] at h
      exact Bool.false_ne_true h
    · have e1 : uploadingStr = 'u' :: ("ploading".data) := rfl
      rw [e1, e2, isPrefixOf_cons_ne 'u' ("ploading".data) 'a'
        ("nalyzing".data ++ rest) (by decide)] at h
      exact Bool.false_ne_true h

/-- C1: a status string beginning with `uploading`, `transcribing` or
`rendering` carries its detail after the separator `: `, and the renderer
displays exactly that detail as the stage-local measure next to the stage
name; a status string beginning with `analyzing` carries no detail and is
rendered as the indeterminate marker. -/
theorem progress_wire_format (stage d rest : List Char)
    (hstage : stage = uploadingStr ∨ stage = transcribingStr ∨ stage = renderingStr)
    (hd : ':' ∉ d) :
    renderProgress (stage ++ colonSpaceSep ++ d) = ProgressView.bar stage (some d)
    ∧ renderProgress (analyzingStr ++ rest) = ProgressView.analyzing := by
  refine ⟨?_, renderProgress_analyzing rest⟩
  rcases hstage with h | h | h <;> subst h
  · apply renderProgress_stage_detail
    · right
      right
      rw [List.append_assoc]
      exact isPrefixOf_append_self uploadingStr (colonSpaceSep ++ d)
    · decide
    · exact hd
  · apply renderProgress_stage_detail
    · left
      rw [List.append_assoc]
      exact isPrefixOf_append_self transcribingStr (colonSpaceSep ++ d)
    · decide
    · exact hd
  · apply renderProgress_stage_detail
    · right
      left
      rw [List.append_assoc]
      exact isPrefixOf_append_self renderingStr (colonSpaceSep ++ d)
    · decide
    · exact hd

theorem progress_wire_format_witness :
    renderProgress (uploadingStr ++ colonSpaceSep ++ ("42%".data))
      = ProgressView.bar uploadingStr (some ("42%".data)) :=
  (progress_wire_format uploadingStr ("42%".data) [] (Or.inl rfl) (by decide)).1

/-- Unfolding of the width computation once the detail is present. -/
theorem barWidth_some (progress val : List Char)
    (h : jsIndex (jsSplit colonSpaceSep progress) 1 = some val) :
    barWidth progress =
      (if val = [] then WidthVal.pct 5
       else if val = preparingStr then WidthVal.pct 5
       else if renderingStr.isPrefixOf progress = true then
         match jsParseInt ((jsSplit slashSep val).getD 0 []),
               jsIndex (jsSplit slashSep val) 1 with
         | some c, some tChunk =>
           match jsParseInt tChunk with
           | some t =>
             if t = 0 then WidthVal.undef
             else WidthVal.pct (max 5 (((c : ℚ) / (t : ℚ)) * 100))
           | none => WidthVal.undef
         | _, _ => WidthVal.undef
       else if val.contains '%' then WidthVal.raw val
       else WidthVal.raw (val ++ "%".data)) := by
  unfold barWidth
  rw [h]

/-- C10: for a progress string `rendering: c/t` with parsed numerator `c ≥ 0`
and denominator `t ≥ 1`, the bar width is `max(5, 100·c/t)` percent — never
below 5% — and a progress string with a missing detail, or with the
undocumented detail `preparing...`, also gets width 5%. -/
theorem rendering_bar_width (cs ts : List Char) (c t : Int)
    (hc : jsParseInt cs = some c) (ht : jsParseInt ts = some t)
    (hcs1 : ':' ∉ cs) (hcs2 : '/' ∉ cs) (hts1 : ':' ∉ ts) (hts2 : '/' ∉ ts)
    (hc0 : 0 ≤ c) (ht1 : 1 ≤ t) :
    barWidth (renderingStr ++ colonSpaceSep ++ (cs ++ '/' :: ts))
      = WidthVal.pct (max 5 (100 * (c : ℚ) / (t : ℚ)))
    ∧ (∀ p : List Char, jsIndex (jsSplit colonSpaceSep p) 1 = none →
        barWidth p = WidthVal.pct 5)
    ∧ (∀ p : List Char, jsIndex (jsSplit colonSpaceSep p) 1 = some preparingStr →
        barWidth p = WidthVal.pct 5) := by
  refine ⟨?_, ?_, ?_⟩
  · have hdet : ':' ∉ (cs ++ '/' :: ts) := by
      intro hmem
      rcases List.mem_append.mp hmem with h | h
      · exact hcs1 h
      · rcases List.mem_cons.mp h with h | h
        · exact absurd h (by decide)
        · exact hts1 h
    have hsep2 : colonSpaceSep = ':' :: [' '] := rfl
    have hsplit : jsSplit colonSpaceSep
        (renderingStr ++ colonSpaceSep ++ (cs ++ '/' :: ts))
        = renderingStr :: [cs ++ '/' :: ts] := by
      rw [hsep2, jsSplit_append ':' [' '] renderingStr _ (by decide),
          jsSplit_of_not_mem ':' [' '] _ hdet]
    have hidx : jsIndex (jsSplit colonSpaceSep
        (renderingStr ++ colonSpaceSep ++ (cs ++ '/' :: ts))) 1
        = some (cs ++ '/' :: ts) := by
      rw [hsplit]
      rfl
    have hslash : jsSplit slashSep (cs ++ '/' :: ts) = cs :: [ts] := by
      have h1 : cs ++ '/' :: ts = cs ++ ('/' :: []) ++ ts := by simp
      have hsl : slashSep = '/' :: [] := rfl
      rw [hsl, h1, jsSplit_append '/' [] cs ts hcs2,
          jsSplit_of_not_mem '/' [] ts hts2]
    have hne : ¬ (cs ++ '/' :: ts) = [] := by
      intro h
      cases cs <;> simp at h
    have hnp : ¬ (cs ++ '/' :: ts) = preparingStr := by
      intro h
      have hm : '/' ∈ cs ++ '/' :: ts :=
        List.mem_append.mpr (Or.inr (List.mem_cons_self _ _))
      rw [h] at hm
      exact absurd hm (by decide)
    have hpre : renderingStr.isPrefixOf
        (renderingStr ++ colonSpaceSep ++ (cs ++ '/' :: ts)) = true := by
      rw [List.append_assoc]
      exact isPrefixOf_append_self renderingStr _
    have hg0 : (jsSplit slashSep (cs ++ '/' :: ts)).getD 0 [] = cs := by
      rw [hslash]
      rfl
    have hg1 : jsIndex (jsSplit slashSep (cs ++ '/' :: ts)) 1 = some ts := by
      rw [hslash]
      rfl
    rw [barWidth_some _ _ hidx, if_neg hne, if_neg hnp, if_pos hpre]
    simp only [hg0, hg1, hc, ht]
    rw [if_neg (by omega : ¬ t = 0)]
    congr 1
    congr 1
    ring
  · intro p hp
    unfold barWidth
    rw [hp]
  · intro p hp
    rw [barWidth_some p preparingStr hp, if_neg (by decide), if_pos rfl]

theorem rendering_bar_width_witness :
    jsParseInt ("3".data) = some 3 ∧ jsParseInt ("10".data) = some 10
    ∧ barWidth (renderingStr ++ colonSpaceSep ++ ("3".data ++ '/' :: "10".data))
        = WidthVal.pct (max 5 (100 * (3 : ℚ) / (10 : ℚ))) :=
  ⟨by decide, by decide,
    (rendering_bar_width ("3".data) ("10".data) 3 10 (by decide) (by decide)
      (by decide) (by decide) (by decide) (by decide) (by decide) (by decide)).1⟩

theorem upload_progress_percent_witness :
    (1 : Nat) ≤ 2 ∧ (0 : Nat) < 2
    ∧ 0 ≤ uploadPercent 1 2 ∧ uploadPercent 1 2 ≤ 100 :=
  ⟨by decide, by decide, (upload_progress_percent 1 2 (by decide) (by decide)).2.1,
    (upload_progress_percent 1 2 (by decide) (by decide)).2.2.1⟩

end Clipper
